import Mathlib

/-!
SalaryLens: shallow embedding and verification.

This file embeds the `SalaryLens` Solidity contract
(`src/contracts/SalaryLens.sol`) in Lean 4 and proves the specification's
claims about it.

* Addresses and `bytes32` handles are modelled as `Nat`; the handle
  `0 = bytes32(0)` is the "no pending request" sentinel, as in the source.
* The contract's storage (`encryptedTotal`, `count`, `hasSubmitted`,
  `lastDecryptedAverage`, `pendingDecryptionHandles`, `usedHandles`) becomes
  the record `CState`.
* Solidity `revert` becomes `Except.error`; the EVM's transaction semantics
  (a reverted call rolls back every write and emits no logs) is the
  `...Tx` wrappers, which return the pre-state and an empty event list on
  error.
* The homomorphic engine (`FHE.fromExternal`, `FHE.add`, `FHE.div`,
  `FHE.allow`, `FHE.allowThis`, `FHE.makePubliclyDecryptable`,
  `FHE.checkSignatures`) is an external library, not part of this
  repository; it is modelled from the spec's interface (§2): opaque
  handle-producing operations, where producing a value always yields a
  fresh handle, and proof checks are an oracle.
-/

namespace SalaryLens

/-- An EVM address (`msg.sender`, participants). -/
abbrev Addr := Nat

/-- Opaque byte strings (`bytes calldata`). -/
abbrev Bytes := List Nat

/-- An external ciphertext (`externalEuint32`), opaque to the contract. -/
abbrev ExtCipher := Nat

/-- A principal of the permission model: the contract itself
(`FHE.allowThis`) or a user address (`FHE.allow`). -/
inductive Principal where
  | contract : Principal
  | user : Addr → Principal
deriving DecidableEq

/-- Modelled from the spec: the cryptographic judgements of the
Homomorphic Engine, which is an external collaborator of this repository
(spec §2, §6).  `fromExternalOk` says whether an input proof validates an
external ciphertext; `checkSigOk` is the trusted-signer verification
behind `FHE.checkSignatures`; `decodeU32` is `abi.decode(_, (uint32))` on
the cleartext bytes. -/
structure Oracle where
  fromExternalOk : ExtCipher → Bytes → Bool
  checkSigOk : List Nat → Bytes → Bytes → Bool
  decodeU32 : Bytes → Nat

/-- Modelled from the spec: the Homomorphic Engine's handle store and the
Permission Registry (spec §2, §4.1).  `nextHandle` is the allocator for
fresh handles (spec §3: a value is "replaced, never mutated, by producing
a new Handle"); handles `≥ 1` so that `0` is never a real handle.
`perm` is the `(Handle, Principal) → granted` relation and
`publiclyDecryptable` the per-handle public flag. -/
structure FHEState where
  nextHandle : Nat
  perm : Nat → Principal → Bool
  publiclyDecryptable : Nat → Bool

/-- Allocate a fresh handle. -/
def FHEState.alloc (f : FHEState) : Nat × FHEState :=
  (f.nextHandle, { f with nextHandle := f.nextHandle + 1 })

namespace FHE

/-- Modelled from the spec: `fromExternal(ciphertext, proof) → Handle`
(spec §2); fails when the input proof does not validate (spec §4.2
step 1). -/
def fromExternal (o : Oracle) (f : FHEState) (c : ExtCipher) (proof : Bytes) :
    Option (Nat × FHEState) :=
  if o.fromExternalOk c proof then some f.alloc else none

/-- Modelled from the spec: `add(Handle, Handle) → Handle` (spec §2);
produces a new handle for the sum (spec §4.2 step 3). -/
def add (f : FHEState) (_h1 _h2 : Nat) : Nat × FHEState :=
  f.alloc

/-- Modelled from the spec: `div(Handle, plaintext) → Handle` (spec §2),
encrypted-by-plaintext division producing a new handle. -/
def div (f : FHEState) (_h : Nat) (_n : Nat) : Nat × FHEState :=
  f.alloc

/-- Modelled from the spec: grant a permission entry, idempotent
(spec §4.1). -/
def allow (f : FHEState) (h : Nat) (p : Principal) : FHEState :=
  { f with perm := fun h2 p2 => if h2 = h ∧ p2 = p then true else f.perm h2 p2 }

/-- Grant the contract principal permission (`FHE.allowThis`). -/
def allowThis (f : FHEState) (h : Nat) : FHEState :=
  allow f h Principal.contract

/-- Modelled from the spec: set the per-handle publicly-decryptable flag,
idempotent and one-directional (spec §4.1). -/
def makePubliclyDecryptable (f : FHEState) (h : Nat) : FHEState :=
  { f with publiclyDecryptable := fun h2 => if h2 = h then true else f.publiclyDecryptable h2 }

end FHE

/-- The contract's storage (`SalaryLens.sol` state variables) together
with the engine/permission state it talks to. -/
structure CState where
  fhe : FHEState
  encryptedTotal : Nat
  count : Nat
  hasSubmitted : Addr → Bool
  lastDecryptedAverage : Addr → Nat
  pendingDecryptionHandles : Addr → Nat
  usedHandles : Nat → Bool

/-- The contract's named errors, plus the two reverts that are not named
errors of the contract: an invalid input proof (propagated out of
`FHE.fromExternal`) and the checked-arithmetic panic of `count++`. -/
inductive SError where
  | AlreadySubmitted : SError
  | NoSalariesSubmitted : SError
  | NoPendingDecryption : SError
  | InvalidDecryptionProof : SError
  | HandleAlreadyUsed : SError
  | InvalidInputProof : SError
  | ArithmeticOverflow : SError
deriving DecidableEq

/-- The contract's events. -/
inductive Event where
  | SalarySubmitted : Addr → Nat → Event
  | AverageRequested : Addr → Nat → Event
  | AverageDecrypted : Addr → Nat → Event
deriving DecidableEq

/-- The modulus of `uint32`, that is `2^32`. -/
def U32MOD : Nat := 4294967296

/-- The function `addSalary(externalEuint32 encryptedSalary, bytes
inputProof)` of `SalaryLens.sol`, lines 136–173. -/
def addSalary (o : Oracle) (s : CState) (sender : Addr)
    (encryptedSalary : ExtCipher) (inputProof : Bytes) :
    Except SError (CState × Event) :=
  if s.hasSubmitted sender = true then
    Except.error SError.AlreadySubmitted
  else
    match FHE.fromExternal o s.fhe encryptedSalary inputProof with
    | none => Except.error SError.InvalidInputProof
    | some (salary, f1) =>
      let f2 := FHE.allowThis f1 salary
      let r := if s.count = 0 then (salary, f2) else FHE.add f2 s.encryptedTotal salary
      if s.count + 1 < U32MOD then
        Except.ok
          ({ s with
              fhe := FHE.allow (FHE.allowThis r.2 r.1) r.1 (Principal.user sender),
              encryptedTotal := r.1,
              count := s.count + 1,
              hasSubmitted := fun a => if a = sender then true else s.hasSubmitted a },
            Event.SalarySubmitted sender (s.count + 1))
      else
        Except.error SError.ArithmeticOverflow

/-- The function `requestAverageDecryption()` of `SalaryLens.sol`, lines
188–214.  Returns the new state, the returned handle, and the emitted
event. -/
def requestAverageDecryption (s : CState) (sender : Addr) :
    Except SError (CState × Nat × Event) :=
  if s.count = 0 then
    Except.error SError.NoSalariesSubmitted
  else
    let r := FHE.div s.fhe s.encryptedTotal s.count
    let encryptedAverage := r.1
    let f2 := FHE.allow (FHE.allowThis r.2 encryptedAverage) encryptedAverage
      (Principal.user sender)
    let f3 := FHE.makePubliclyDecryptable f2 encryptedAverage
    let handle := encryptedAverage
    Except.ok
      ({ s with
          fhe := f3,
          pendingDecryptionHandles :=
            fun a => if a = sender then handle else s.pendingDecryptionHandles a },
        handle,
        Event.AverageRequested sender handle)

/-- The function `verifyDecryption(bytes abiEncodedCleartexts, bytes
decryptionProof)` of `SalaryLens.sol`, lines 227–263. -/
def verifyDecryption (o : Oracle) (s : CState) (sender : Addr)
    (abiEncodedCleartexts : Bytes) (decryptionProof : Bytes) :
    Except SError (CState × Event) :=
  let handle := s.pendingDecryptionHandles sender
  if handle = 0 then
    Except.error SError.NoPendingDecryption
  else if s.usedHandles handle = true then
    Except.error SError.HandleAlreadyUsed
  else if o.checkSigOk [handle] abiEncodedCleartexts decryptionProof = false then
    Except.error SError.InvalidDecryptionProof
  else
    let decryptedAverage := o.decodeU32 abiEncodedCleartexts
    Except.ok
      ({ s with
          lastDecryptedAverage :=
            fun a => if a = sender then decryptedAverage else s.lastDecryptedAverage a,
          usedHandles := fun h => if h = handle then true else s.usedHandles h,
          pendingDecryptionHandles :=
            fun a => if a = sender then 0 else s.pendingDecryptionHandles a },
        Event.AverageDecrypted sender decryptedAverage)

/-- View `getCount()`. -/
def getCount (s : CState) : Nat := s.count

/-- View `hasUserSubmitted(address user)`. -/
def hasUserSubmitted (s : CState) (user : Addr) : Bool := s.hasSubmitted user

/-- View `getLastAverage(address user)`. -/
def getLastAverage (s : CState) (user : Addr) : Nat := s.lastDecryptedAverage user

/-- View `getPendingHandle(address user)`. -/
def getPendingHandle (s : CState) (user : Addr) : Nat :=
  s.pendingDecryptionHandles user

/-- Engine/permission state at deployment: no handle allocated yet
(allocation starts at `1`, keeping `0` for `bytes32(0)`), no permission
granted, nothing publicly decryptable. -/
def initFHE : FHEState :=
  { nextHandle := 1, perm := fun _ _ => false, publiclyDecryptable := fun _ => false }

/-- The constructor (`SalaryLens.sol` lines 115–117): zero count,
uninitialized (zero) total, empty mappings. -/
def initState : CState :=
  { fhe := initFHE
    encryptedTotal := 0
    count := 0
    hasSubmitted := fun _ => false
    lastDecryptedAverage := fun _ => 0
    pendingDecryptionHandles := fun _ => 0
    usedHandles := fun _ => false }

/-- EVM transaction semantics for `addSalary`: a revert rolls every write
back and emits no logs. -/
def addSalaryTx (o : Oracle) (s : CState) (sender : Addr)
    (encryptedSalary : ExtCipher) (inputProof : Bytes) : CState × List Event :=
  match addSalary o s sender encryptedSalary inputProof with
  | Except.ok (s', ev) => (s', [ev])
  | Except.error _ => (s, [])

/-- EVM transaction semantics for `requestAverageDecryption`. -/
def requestAverageTx (s : CState) (sender : Addr) : CState × List Event :=
  match requestAverageDecryption s sender with
  | Except.ok (s', _, ev) => (s', [ev])
  | Except.error _ => (s, [])

/-- EVM transaction semantics for `verifyDecryption`. -/
def verifyDecryptionTx (o : Oracle) (s : CState) (sender : Addr)
    (abiEncodedCleartexts : Bytes) (decryptionProof : Bytes) : CState × List Event :=
  match verifyDecryption o s sender abiEncodedCleartexts decryptionProof with
  | Except.ok (s', ev) => (s', [ev])
  | Except.error _ => (s, [])

/-- One successful state-mutating transaction of the contract, under some
oracle and caller.  Failed transactions leave the state unchanged (see the
`...Tx` wrappers), so reachability is generated by the successes. -/
inductive Step : CState → CState → Prop where
  | submit {o : Oracle} {s : CState} {sender : Addr} {c : ExtCipher} {p : Bytes}
      {s' : CState} {ev : Event} :
      addSalary o s sender c p = Except.ok (s', ev) → Step s s'
  | request {s : CState} {sender : Addr} {s' : CState} {h : Nat} {ev : Event} :
      requestAverageDecryption s sender = Except.ok (s', h, ev) → Step s s'
  | verify {o : Oracle} {s : CState} {sender : Addr} {b p : Bytes}
      {s' : CState} {ev : Event} :
      verifyDecryption o s sender b p = Except.ok (s', ev) → Step s s'

/-- States reachable from deployment by any sequence of transactions. -/
def Reachable (s : CState) : Prop :=
  Relation.ReflTransGen Step initState s

/-- A permissive test oracle: every proof validates, and `decodeU32`
reads the first word of the cleartext bytes. -/
def oracleYes : Oracle :=
  { fromExternalOk := fun _ _ => true
    checkSigOk := fun _ _ _ => true
    decodeU32 := fun b => b.headD 0 }

/-- A rejecting test oracle: no proof validates. -/
def oracleNo : Oracle :=
  { fromExternalOk := fun _ _ => false
    checkSigOk := fun _ _ _ => false
    decodeU32 := fun b => b.headD 0 }

/-- Example state: one salary (external ciphertext `7`) submitted by
address `1`. -/
def exS1 : CState := (addSalaryTx oracleYes initState 1 7 []).1

/-- Example state: address `0` then requested the average. -/
def exS2 : CState := (requestAverageTx exS1 0).1

/-- Example state: address `0` requested the average again, overwriting
its pending handle. -/
def exS3 : CState := (requestAverageTx exS2 0).1

/-- Example state: a second salary (external ciphertext `8`) submitted by
address `2` on top of `exS1`. -/
def exS4 : CState := (addSalaryTx oracleYes exS1 2 8 []).1

/-- Example well-formed state: the handle `1` is consumed (in the replay
set) while still recorded as pending for every requester, exercising the
replay guard. -/
def exUsed : CState :=
  { fhe :=
      { nextHandle := 2, perm := fun _ _ => false
        publiclyDecryptable := fun _ => false }
    encryptedTotal := 1
    count := 1
    hasSubmitted := fun _ => false
    lastDecryptedAverage := fun _ => 0
    pendingDecryptionHandles := fun _ => 1
    usedHandles := fun h => decide (h = 1) }

/-- Well-formedness of a contract state: every handle the contract stores
was allocated by the engine (hence is below `nextHandle` and, for handles
recorded as used, nonzero), `count` fits in a `uint32`, and `count = 0`
exactly when the total is the uninitialized handle `0`. -/
structure Wf (s : CState) : Prop where
  next_pos : 1 ≤ s.fhe.nextHandle
  total_lt : s.encryptedTotal < s.fhe.nextHandle
  count_lt : s.count < U32MOD
  zero_iff : s.count = 0 ↔ s.encryptedTotal = 0
  pending_lt : ∀ a, s.pendingDecryptionHandles a < s.fhe.nextHandle
  used_ne : ∀ h, s.usedHandles h = true → 1 ≤ h
  used_lt : ∀ h, s.usedHandles h = true → h < s.fhe.nextHandle

/-- Inversion for a successful `addSalary`: the preconditions that must
have held, and every field of the post-state. -/
theorem addSalary_ok_cases {o : Oracle} {s : CState} {sender : Addr}
    {c : ExtCipher} {p : Bytes} {s' : CState} {ev : Event}
    (h : addSalary o s sender c p = Except.ok (s', ev)) :
    s.hasSubmitted sender = false ∧ o.fromExternalOk c p = true ∧
    s.count + 1 < U32MOD ∧
    s'.count = s.count + 1 ∧
    (∀ a, s'.hasSubmitted a = (if a = sender then true else s.hasSubmitted a)) ∧
    s'.lastDecryptedAverage = s.lastDecryptedAverage ∧
    s'.pendingDecryptionHandles = s.pendingDecryptionHandles ∧
    s'.usedHandles = s.usedHandles ∧
    s'.encryptedTotal = (if s.count = 0 then s.fhe.nextHandle else s.fhe.nextHandle + 1) ∧
    s'.fhe.nextHandle = (if s.count = 0 then s.fhe.nextHandle + 1 else s.fhe.nextHandle + 2) ∧
    ev = Event.SalarySubmitted sender (s.count + 1) := by
  unfold addSalary at h
  split at h
  · exact absurd h (by simp)
  · rename_i h1
    unfold FHE.fromExternal at h
    by_cases h2 : o.fromExternalOk c p = true
    · rw [if_pos h2] at h
      simp only [FHEState.alloc] at h
      split at h
      · rename_i h3
        injection h with h
        injection h with hs hev
        subst hs; subst hev
        refine ⟨by simpa using h1, h2, h3, rfl, ?_, rfl, rfl, rfl, ?_, ?_, rfl⟩
        · intro a; by_cases ha : a = sender <;> simp [ha]
        · by_cases h0 : s.count = 0 <;>
            simp [h0, FHE.add, FHE.allowThis, FHE.allow, FHEState.alloc]
        · by_cases h0 : s.count = 0 <;>
            simp [h0, FHE.add, FHE.allowThis, FHE.allow, FHEState.alloc]
      · exact absurd h (by simp)
    · rw [if_neg h2] at h
      exact absurd h (by simp)

/-- Calling `addSalary` from an address already in the submission record fails with
`AlreadySubmitted`. -/
theorem addSalary_already {o : Oracle} {s : CState} {sender : Addr}
    {c : ExtCipher} {p : Bytes} (h1 : s.hasSubmitted sender = true) :
    addSalary o s sender c p = Except.error SError.AlreadySubmitted := by
  simp [addSalary, h1]

/-- Inversion for a successful `requestAverageDecryption`: the
precondition, the returned handle, and every field of the post-state. -/
theorem request_ok_cases {s : CState} {sender : Addr} {s' : CState}
    {hd : Nat} {ev : Event}
    (h : requestAverageDecryption s sender = Except.ok (s', hd, ev)) :
    s.count ≠ 0 ∧
    hd = (FHE.div s.fhe s.encryptedTotal s.count).1 ∧
    hd = s.fhe.nextHandle ∧
    s'.count = s.count ∧
    s'.encryptedTotal = s.encryptedTotal ∧
    s'.hasSubmitted = s.hasSubmitted ∧
    s'.lastDecryptedAverage = s.lastDecryptedAverage ∧
    s'.usedHandles = s.usedHandles ∧
    (∀ a, s'.pendingDecryptionHandles a =
      (if a = sender then hd else s.pendingDecryptionHandles a)) ∧
    s'.fhe.nextHandle = s.fhe.nextHandle + 1 ∧
    s'.fhe.perm hd Principal.contract = true ∧
    s'.fhe.perm hd (Principal.user sender) = true ∧
    s'.fhe.publiclyDecryptable hd = true ∧
    ev = Event.AverageRequested sender hd := by
  unfold requestAverageDecryption at h
  split at h
  · exact absurd h (by simp)
  · rename_i h0
    simp only [FHE.div, FHEState.alloc] at h
    injection h with h
    injection h with hs h
    injection h with hh hev
    subst hs; subst hh; subst hev
    refine ⟨h0, rfl, rfl, rfl, rfl, rfl, rfl, rfl, ?_, ?_, ?_, ?_, ?_, rfl⟩
    · intro a; by_cases ha : a = sender <;> simp [ha]
    · simp [FHE.makePubliclyDecryptable, FHE.allow, FHE.allowThis]
    · simp [FHE.makePubliclyDecryptable, FHE.allow, FHE.allowThis]
    · simp [FHE.makePubliclyDecryptable, FHE.allow, FHE.allowThis]
    · simp [FHE.makePubliclyDecryptable, FHE.allow, FHE.allowThis]

/-- Calling `requestAverageDecryption` with a zero count fails with
`NoSalariesSubmitted`. -/
theorem request_error_zero {s : CState} {sender : Addr} (h0 : s.count = 0) :
    requestAverageDecryption s sender = Except.error SError.NoSalariesSubmitted := by
  simp [requestAverageDecryption, h0]

/-- Calling `requestAverageDecryption` with a positive count succeeds. -/
theorem request_ok_of_pos {s : CState} {sender : Addr} (h0 : s.count ≠ 0) :
    ∃ s' hd ev, requestAverageDecryption s sender = Except.ok (s', hd, ev) := by
  unfold requestAverageDecryption
  rw [if_neg h0]
  exact ⟨_, _, _, rfl⟩

/-- Inversion for a successful `verifyDecryption`: the preconditions and
every field of the post-state. -/
theorem verify_ok_cases {o : Oracle} {s : CState} {sender : Addr}
    {b p : Bytes} {s' : CState} {ev : Event}
    (h : verifyDecryption o s sender b p = Except.ok (s', ev)) :
    s.pendingDecryptionHandles sender ≠ 0 ∧
    s.usedHandles (s.pendingDecryptionHandles sender) = false ∧
    o.checkSigOk [s.pendingDecryptionHandles sender] b p = true ∧
    s'.count = s.count ∧
    s'.encryptedTotal = s.encryptedTotal ∧
    s'.fhe = s.fhe ∧
    s'.hasSubmitted = s.hasSubmitted ∧
    (∀ a, s'.lastDecryptedAverage a =
      (if a = sender then o.decodeU32 b else s.lastDecryptedAverage a)) ∧
    (∀ h2, s'.usedHandles h2 =
      (if h2 = s.pendingDecryptionHandles sender then true else s.usedHandles h2)) ∧
    (∀ a, s'.pendingDecryptionHandles a =
      (if a = sender then 0 else s.pendingDecryptionHandles a)) ∧
    ev = Event.AverageDecrypted sender (o.decodeU32 b) := by
  simp only [verifyDecryption] at h
  split at h
  · exact absurd h (by simp)
  · rename_i h0
    split at h
    · exact absurd h (by simp)
    · rename_i hu
      split at h
      · exact absurd h (by simp)
      · rename_i hsig
        injection h with h
        injection h with hs hev
        subst hs; subst hev
        refine ⟨h0, by simpa using hu, by simpa using hsig, rfl, rfl, rfl, rfl,
          ?_, ?_, ?_, rfl⟩
        · intro a; by_cases ha : a = sender <;> simp [ha]
        · intro h2
          by_cases hh : h2 = s.pendingDecryptionHandles sender <;> simp [hh]
        · intro a; by_cases ha : a = sender <;> simp [ha]

/-- Calling `verifyDecryption` with no pending handle fails with
`NoPendingDecryption`, whatever the bytes, proof and oracle. -/
theorem verify_error_nopending {o : Oracle} {s : CState} {sender : Addr}
    {b p : Bytes} (h0 : s.pendingDecryptionHandles sender = 0) :
    verifyDecryption o s sender b p = Except.error SError.NoPendingDecryption := by
  simp [verifyDecryption, h0]

/-- Calling `verifyDecryption` with a pending handle already in the replay set
fails with `HandleAlreadyUsed`, whatever the bytes, proof and oracle. -/
theorem verify_error_used {o : Oracle} {s : CState} {sender : Addr}
    {b p : Bytes} (h0 : s.pendingDecryptionHandles sender ≠ 0)
    (hu : s.usedHandles (s.pendingDecryptionHandles sender) = true) :
    verifyDecryption o s sender b p = Except.error SError.HandleAlreadyUsed := by
  simp [verifyDecryption, h0, hu]

/-- Calling `verifyDecryption` with a pending, unconsumed handle but a proof that
does not verify fails with `InvalidDecryptionProof`. -/
theorem verify_error_sig {o : Oracle} {s : CState} {sender : Addr}
    {b p : Bytes} (h0 : s.pendingDecryptionHandles sender ≠ 0)
    (hu : s.usedHandles (s.pendingDecryptionHandles sender) = false)
    (hsig : o.checkSigOk [s.pendingDecryptionHandles sender] b p = false) :
    verifyDecryption o s sender b p = Except.error SError.InvalidDecryptionProof := by
  simp [verifyDecryption, h0, hu, hsig]

/-- The deployed state is well-formed. -/
theorem wf_init : Wf initState := by
  constructor <;> simp [initState, initFHE, U32MOD]

/-- A successful `addSalary` preserves well-formedness. -/
theorem wf_addSalary {o : Oracle} {s : CState} {sender : Addr}
    {c : ExtCipher} {p : Bytes} {s' : CState} {ev : Event}
    (h : addSalary o s sender c p = Except.ok (s', ev)) (hw : Wf s) : Wf s' := by
  obtain ⟨-, -, h3, hcount, -, -, hpend, hused, htotal, hnext, -⟩ :=
    addSalary_ok_cases h
  have hn := hw.next_pos
  by_cases h0 : s.count = 0 <;>
    [rw [if_pos h0] at htotal hnext; rw [if_neg h0] at htotal hnext] <;>
    constructor
  · rw [hnext]; omega
  · rw [htotal, hnext]; omega
  · rw [hcount]; exact h3
  · rw [hcount, htotal]; constructor <;> intro hx <;> omega
  · intro a; rw [hpend, hnext]
    exact lt_trans (hw.pending_lt a) (Nat.lt_succ_self _)
  · intro h2 hh; exact hw.used_ne h2 (hused ▸ hh)
  · intro h2 hh; rw [hnext]
    exact lt_trans (hw.used_lt h2 (hused ▸ hh)) (Nat.lt_succ_self _)
  · rw [hnext]; omega
  · rw [htotal, hnext]; omega
  · rw [hcount]; exact h3
  · rw [hcount, htotal]; constructor <;> intro hx <;> omega
  · intro a; rw [hpend, hnext]
    exact lt_trans (hw.pending_lt a) (by omega)
  · intro h2 hh; exact hw.used_ne h2 (hused ▸ hh)
  · intro h2 hh; rw [hnext]
    exact lt_trans (hw.used_lt h2 (hused ▸ hh)) (by omega)

/-- A successful `requestAverageDecryption` preserves well-formedness. -/
theorem wf_request {s : CState} {sender : Addr} {s' : CState}
    {hd : Nat} {ev : Event}
    (h : requestAverageDecryption s sender = Except.ok (s', hd, ev))
    (hw : Wf s) : Wf s' := by
  obtain ⟨-, -, hhd, hcount, htotal, -, -, hused, hpend, hnext, -, -, -, -⟩ :=
    request_ok_cases h
  exact
    { next_pos := by rw [hnext]; omega
      total_lt := by rw [htotal, hnext]; exact lt_trans hw.total_lt (by omega)
      count_lt := hcount ▸ hw.count_lt
      zero_iff := by rw [hcount, htotal]; exact hw.zero_iff
      pending_lt := by
        intro a; rw [hpend a, hnext]
        by_cases ha : a = sender
        · rw [if_pos ha, hhd]; omega
        · rw [if_neg ha]; exact lt_trans (hw.pending_lt a) (by omega)
      used_ne := by intro h2 hh; exact hw.used_ne h2 (hused ▸ hh)
      used_lt := by
        intro h2 hh; rw [hnext]
        exact lt_trans (hw.used_lt h2 (hused ▸ hh)) (by omega) }

/-- A successful `verifyDecryption` preserves well-formedness. -/
theorem wf_verify {o : Oracle} {s : CState} {sender : Addr}
    {b p : Bytes} {s' : CState} {ev : Event}
    (h : verifyDecryption o s sender b p = Except.ok (s', ev)) (hw : Wf s) :
    Wf s' := by
  obtain ⟨hpend0, -, -, hcount, htotal, hfhe, -, -, hused, hpend, -⟩ :=
    verify_ok_cases h
  exact
    { next_pos := by rw [hfhe]; exact hw.next_pos
      total_lt := by rw [htotal, hfhe]; exact hw.total_lt
      count_lt := hcount ▸ hw.count_lt
      zero_iff := by rw [hcount, htotal]; exact hw.zero_iff
      pending_lt := by
        intro a; rw [hpend a, hfhe]
        by_cases ha : a = sender
        · rw [if_pos ha]
          exact lt_of_lt_of_le (by omega : (0 : Nat) < 1) hw.next_pos
        · rw [if_neg ha]; exact hw.pending_lt a
      used_ne := by
        intro h2 hh; rw [hused h2] at hh
        by_cases hh2 : h2 = s.pendingDecryptionHandles sender
        · subst hh2; omega
        · rw [if_neg hh2] at hh; exact hw.used_ne h2 hh
      used_lt := by
        intro h2 hh; rw [hfhe]; rw [hused h2] at hh
        by_cases hh2 : h2 = s.pendingDecryptionHandles sender
        · subst hh2; exact hw.pending_lt sender
        · rw [if_neg hh2] at hh; exact hw.used_lt h2 hh }

/-- Every transaction step preserves well-formedness. -/
theorem wf_step {s s' : CState} (h : Step s s') (hw : Wf s) : Wf s' := by
  cases h with
  | submit h => exact wf_addSalary h hw
  | request h => exact wf_request h hw
  | verify h => exact wf_verify h hw

/-- Every reachable state is well-formed. -/
theorem wf_reachable {s : CState} (h : Reachable s) : Wf s := by
  induction h with
  | refl => exact wf_init
  | tail _ hstep ih => exact wf_step hstep ih

/-- Calling `verifyDecryption` when a pending, unconsumed handle has a
verifying proof. -/
theorem verify_ok_of {o : Oracle} {s : CState} {sender : Addr} {b p : Bytes}
    (h0 : s.pendingDecryptionHandles sender ≠ 0)
    (hu : s.usedHandles (s.pendingDecryptionHandles sender) = false)
    (hsig : o.checkSigOk [s.pendingDecryptionHandles sender] b p = true) :
    ∃ s' ev, verifyDecryption o s sender b p = Except.ok (s', ev) := by
  simp only [verifyDecryption, if_neg h0, hu, hsig]
  simp only [Bool.false_eq_true, if_false, Bool.true_eq_false]
  exact ⟨_, _, rfl⟩

/-- Claim C3: `verifyDecryption` checks its preconditions in a fixed order:
no pending handle reports `NoPendingDecryption`; a pending handle already
in the replay set reports `HandleAlreadyUsed`; a pending, unconsumed
handle with a non-verifying proof reports `InvalidDecryptionProof`; and
when one of the first two conditions fails the result does not depend on
the cleartext bytes, the proof, or the verification oracle (the proof is
never checked). -/
theorem claim_C3 :
    (∀ (o : Oracle) (s : CState) (r : Addr) (b p : Bytes),
      s.pendingDecryptionHandles r = 0 →
      verifyDecryption o s r b p = Except.error SError.NoPendingDecryption) ∧
    (∀ (o : Oracle) (s : CState) (r : Addr) (b p : Bytes),
      s.pendingDecryptionHandles r ≠ 0 →
      s.usedHandles (s.pendingDecryptionHandles r) = true →
      verifyDecryption o s r b p = Except.error SError.HandleAlreadyUsed) ∧
    (∀ (o : Oracle) (s : CState) (r : Addr) (b p : Bytes),
      s.pendingDecryptionHandles r ≠ 0 →
      s.usedHandles (s.pendingDecryptionHandles r) = false →
      o.checkSigOk [s.pendingDecryptionHandles r] b p = false →
      verifyDecryption o s r b p = Except.error SError.InvalidDecryptionProof) ∧
    (∀ (o1 o2 : Oracle) (s : CState) (r : Addr) (b1 p1 b2 p2 : Bytes),
      (s.pendingDecryptionHandles r = 0 ∨
        s.usedHandles (s.pendingDecryptionHandles r) = true) →
      verifyDecryption o1 s r b1 p1 = verifyDecryption o2 s r b2 p2) := by
  refine ⟨?_, ?_, ?_, ?_⟩
  · intro o s r b p h0
    exact verify_error_nopending h0
  · intro o s r b p h0 hu
    exact verify_error_used h0 hu
  · intro o s r b p h0 hu hsig
    exact verify_error_sig h0 hu hsig
  · intro o1 o2 s r b1 p1 b2 p2 hcond
    rcases hcond with h0 | hu
    · rw [verify_error_nopending h0, verify_error_nopending h0]
    · by_cases h0 : s.pendingDecryptionHandles r = 0
      · rw [verify_error_nopending h0, verify_error_nopending h0]
      · rw [verify_error_used h0 hu, verify_error_used h0 hu]

/-- C3 witness: on the deployed state (no pending handle) the first check
fires, for two different oracles and inputs. -/
theorem claim_C3_witness :
    verifyDecryption oracleYes initState 0 [5] [] =
      Except.error SError.NoPendingDecryption ∧
    verifyDecryption oracleYes initState 0 [5] [] =
      verifyDecryption oracleNo initState 0 [9] [3] :=
  ⟨claim_C3.1 oracleYes initState 0 [5] [] rfl,
    claim_C3.2.2.2 oracleYes oracleNo initState 0 [5] [] [9] [3] (Or.inl rfl)⟩

/-- Claim C10: The absence of a pending request is represented by the
handle `0` (`bytes32(0)`): `verifyDecryption` fails with
`NoPendingDecryption` exactly when `getPendingHandle` returns `0`, and a
requester whose stored handle is `0` can never verify successfully. -/
theorem claim_C10 (o : Oracle) (s : CState) (r : Addr) :
    (∀ b p, verifyDecryption o s r b p = Except.error SError.NoPendingDecryption ↔
      getPendingHandle s r = 0) ∧
    (getPendingHandle s r = 0 →
      ∀ b p s' ev, verifyDecryption o s r b p ≠ Except.ok (s', ev)) := by
  have key : ∀ b p, s.pendingDecryptionHandles r ≠ 0 →
      verifyDecryption o s r b p ≠ Except.error SError.NoPendingDecryption := by
    intro b p h0
    by_cases hu : s.usedHandles (s.pendingDecryptionHandles r) = true
    · rw [verify_error_used h0 hu]; simp
    · rw [Bool.not_eq_true] at hu
      by_cases hsig : o.checkSigOk [s.pendingDecryptionHandles r] b p = false
      · rw [verify_error_sig h0 hu hsig]; simp
      · rw [Bool.not_eq_false] at hsig
        obtain ⟨s', ev, hok⟩ := verify_ok_of h0 hu hsig
        rw [hok]; simp
  constructor
  · intro b p
    constructor
    · intro he
      by_contra h0
      exact key b p h0 he
    · intro h0
      exact verify_error_nopending h0
  · intro h0 b p s' ev
    rw [verify_error_nopending h0]
    simp

/-- C10 witness: at the deployed state the pending handle of address `0`
is `0`, and verification reports `NoPendingDecryption`. -/
theorem claim_C10_witness :
    (verifyDecryption oracleYes initState 0 [4] [] =
      Except.error SError.NoPendingDecryption ↔ getPendingHandle initState 0 = 0) ∧
    verifyDecryption oracleYes initState 0 [4] [] ≠
      Except.ok ((verifyDecryptionTx oracleYes initState 0 [4] []).1,
        Event.AverageDecrypted 0 4) :=
  ⟨(claim_C10 oracleYes initState 0).1 [4] [],
    (claim_C10 oracleYes initState 0).2 rfl [4] [] _ _⟩

/-- Claim C7: Every failing call of `addSalary`, `requestAverageDecryption`
or `verifyDecryption` aborts atomically: the transaction leaves the state
exactly as it was, emits no event, and every queryable view (count,
submission flags, pending handle, last average) is unchanged. -/
theorem claim_C7 :
    (∀ (o : Oracle) (s : CState) (sender : Addr) (c : ExtCipher) (p : Bytes)
        (e : SError), addSalary o s sender c p = Except.error e →
      addSalaryTx o s sender c p = (s, []) ∧
      getCount (addSalaryTx o s sender c p).1 = getCount s ∧
      (∀ u, hasUserSubmitted (addSalaryTx o s sender c p).1 u = hasUserSubmitted s u) ∧
      (∀ u, getPendingHandle (addSalaryTx o s sender c p).1 u = getPendingHandle s u) ∧
      (∀ u, getLastAverage (addSalaryTx o s sender c p).1 u = getLastAverage s u)) ∧
    (∀ (s : CState) (sender : Addr) (e : SError),
      requestAverageDecryption s sender = Except.error e →
      requestAverageTx s sender = (s, []) ∧
      getCount (requestAverageTx s sender).1 = getCount s ∧
      (∀ u, hasUserSubmitted (requestAverageTx s sender).1 u = hasUserSubmitted s u) ∧
      (∀ u, getPendingHandle (requestAverageTx s sender).1 u = getPendingHandle s u) ∧
      (∀ u, getLastAverage (requestAverageTx s sender).1 u = getLastAverage s u)) ∧
    (∀ (o : Oracle) (s : CState) (sender : Addr) (b p : Bytes) (e : SError),
      verifyDecryption o s sender b p = Except.error e →
      verifyDecryptionTx o s sender b p = (s, []) ∧
      getCount (verifyDecryptionTx o s sender b p).1 = getCount s ∧
      (∀ u, hasUserSubmitted (verifyDecryptionTx o s sender b p).1 u = hasUserSubmitted s u) ∧
      (∀ u, getPendingHandle (verifyDecryptionTx o s sender b p).1 u = getPendingHandle s u) ∧
      (∀ u, getLastAverage (verifyDecryptionTx o s sender b p).1 u = getLastAverage s u)) := by
  refine ⟨?_, ?_, ?_⟩
  · intro o s sender c p e h
    have ht : addSalaryTx o s sender c p = (s, []) := by
      unfold addSalaryTx; rw [h]
    rw [ht]
    exact ⟨rfl, rfl, fun u => rfl, fun u => rfl, fun u => rfl⟩
  · intro s sender e h
    have ht : requestAverageTx s sender = (s, []) := by
      unfold requestAverageTx; rw [h]
    rw [ht]
    exact ⟨rfl, rfl, fun u => rfl, fun u => rfl, fun u => rfl⟩
  · intro o s sender b p e h
    have ht : verifyDecryptionTx o s sender b p = (s, []) := by
      unfold verifyDecryptionTx; rw [h]
    rw [ht]
    exact ⟨rfl, rfl, fun u => rfl, fun u => rfl, fun u => rfl⟩

/-- C7 witness: a rejected submission (invalid input proof), a rejected
average request (no submissions) and a rejected verification (no pending
handle), each leaving the deployed state untouched with no events. -/
theorem claim_C7_witness :
    addSalaryTx oracleNo initState 1 7 [] = (initState, []) ∧
    requestAverageTx initState 0 = (initState, []) ∧
    verifyDecryptionTx oracleYes initState 0 [] [] = (initState, []) :=
  ⟨(claim_C7.1 oracleNo initState 1 7 [] SError.InvalidInputProof rfl).1,
    (claim_C7.2.1 initState 0 SError.NoSalariesSubmitted rfl).1,
    (claim_C7.2.2 oracleYes initState 0 [] [] SError.NoPendingDecryption rfl).1⟩

/-- Claim C5: A principal already recorded as having submitted always gets
`AlreadySubmitted`, with every queryable view unchanged by the failed
transaction; in particular the second of two submissions by the same
principal always fails with `AlreadySubmitted`. -/
theorem claim_C5 :
    (∀ (o : Oracle) (s : CState) (p0 : Addr) (c : ExtCipher) (pr : Bytes),
      hasUserSubmitted s p0 = true →
      addSalary o s p0 c pr = Except.error SError.AlreadySubmitted ∧
      addSalaryTx o s p0 c pr = (s, []) ∧
      getCount (addSalaryTx o s p0 c pr).1 = getCount s ∧
      (∀ u, hasUserSubmitted (addSalaryTx o s p0 c pr).1 u = hasUserSubmitted s u) ∧
      (addSalaryTx o s p0 c pr).1.encryptedTotal = s.encryptedTotal) ∧
    (∀ (o1 o2 : Oracle) (s : CState) (p0 : Addr) (c1 c2 : ExtCipher)
        (pr1 pr2 : Bytes) (s1 : CState) (ev : Event),
      addSalary o1 s p0 c1 pr1 = Except.ok (s1, ev) →
      addSalary o2 s1 p0 c2 pr2 = Except.error SError.AlreadySubmitted ∧
      getCount (addSalaryTx o2 s1 p0 c2 pr2).1 = getCount s1) := by
  constructor
  · intro o s p0 c pr h1
    have he : addSalary o s p0 c pr = Except.error SError.AlreadySubmitted :=
      addSalary_already h1
    have ht : addSalaryTx o s p0 c pr = (s, []) := by
      unfold addSalaryTx; rw [he]
    rw [ht]
    exact ⟨he, rfl, rfl, fun u => rfl, rfl⟩
  · intro o1 o2 s p0 c1 c2 pr1 pr2 s1 ev h
    obtain ⟨-, -, -, -, hsub, -⟩ := addSalary_ok_cases h
    have h1 : s1.hasSubmitted p0 = true := by rw [hsub p0]; simp
    have he : addSalary o2 s1 p0 c2 pr2 = Except.error SError.AlreadySubmitted :=
      addSalary_already h1
    have ht : addSalaryTx o2 s1 p0 c2 pr2 = (s1, []) := by
      unfold addSalaryTx; rw [he]
    rw [ht]
    exact ⟨he, rfl⟩

/-- C5 witness: after address `1` submits once from the deployed state,
its second submission fails with `AlreadySubmitted` and the count is
untouched. -/
theorem claim_C5_witness :
    addSalary oracleYes exS1 1 9 [] = Except.error SError.AlreadySubmitted ∧
    getCount (addSalaryTx oracleYes exS1 1 9 []).1 = getCount exS1 :=
  claim_C5.2 oracleYes oracleYes initState 1 7 9 [] [] exS1
    (Event.SalarySubmitted 1 1) rfl

/-- Claim C6: `requestAverageDecryption` fails (with `NoSalariesSubmitted`)
exactly when the count is zero, so `FHE.div` is never reached with a zero
divisor; with a positive count it divides the total by the count, grants
the contract and the requester permission on the average, marks it
publicly decryptable, records it as the requester's pending handle,
emits `AverageRequested(requester, handle)`, and returns exactly the
stored pending handle. -/
theorem claim_C6 :
    (∀ (s : CState) (sender : Addr),
      (∃ e, requestAverageDecryption s sender = Except.error e) ↔ s.count = 0) ∧
    (∀ (s : CState) (sender : Addr) (e : SError),
      requestAverageDecryption s sender = Except.error e →
      e = SError.NoSalariesSubmitted) ∧
    (∀ (s : CState) (sender : Addr) (s' : CState) (hd : Nat) (ev : Event),
      requestAverageDecryption s sender = Except.ok (s', hd, ev) →
      s.count ≠ 0 ∧
      hd = (FHE.div s.fhe s.encryptedTotal s.count).1 ∧
      s'.fhe.perm hd Principal.contract = true ∧
      s'.fhe.perm hd (Principal.user sender) = true ∧
      s'.fhe.publiclyDecryptable hd = true ∧
      getPendingHandle s' sender = hd ∧
      ev = Event.AverageRequested sender hd) := by
  refine ⟨?_, ?_, ?_⟩
  · intro s sender
    constructor
    · rintro ⟨e, he⟩
      by_contra h0
      obtain ⟨s', hd, ev, hok⟩ := request_ok_of_pos h0
      rw [hok] at he
      exact absurd he (by simp)
    · intro h0
      exact ⟨SError.NoSalariesSubmitted, request_error_zero h0⟩
  · intro s sender e he
    by_cases h0 : s.count = 0
    · rw [request_error_zero h0] at he
      exact (Except.error.injEq _ _ ▸ he).symm
    · obtain ⟨s', hd, ev, hok⟩ := request_ok_of_pos h0
      rw [hok] at he
      exact absurd he (by simp)
  · intro s sender s' hd ev h
    obtain ⟨h0, hdiv, -, -, -, -, -, -, hpend, -, hpc, hpu, hpub, hev⟩ :=
      request_ok_cases h
    refine ⟨h0, hdiv, hpc, hpu, hpub, ?_, hev⟩
    unfold getPendingHandle
    rw [hpend sender]
    simp

/-- C6 witness: on the deployed state the request fails (count `0`), and
after one submission it succeeds, returning the stored pending handle. -/
theorem claim_C6_witness :
    ((∃ e, requestAverageDecryption initState 0 = Except.error e) ↔
      initState.count = 0) ∧
    getPendingHandle exS2 0 = 2 ∧
    exS2.fhe.publiclyDecryptable 2 = true :=
  ⟨(claim_C6.1 initState 0),
    (claim_C6.2.2 exS1 0 exS2 2 (Event.AverageRequested 0 2) rfl).2.2.2.2.2.1,
    (claim_C6.2.2 exS1 0 exS2 2 (Event.AverageRequested 0 2) rfl).2.2.2.2.1⟩

/-- Claim C1: Replay protection: in a well-formed state, a requester whose
pending handle is already in the replay set always gets
`HandleAlreadyUsed`, whatever cleartext bytes, proof and oracle are
supplied; and no transaction ever removes a handle from the replay set. -/
theorem claim_C1 :
    (∀ (o : Oracle) (s : CState) (r : Addr) (hd : Nat) (b p : Bytes),
      Wf s → s.pendingDecryptionHandles r = hd → s.usedHandles hd = true →
      verifyDecryption o s r b p = Except.error SError.HandleAlreadyUsed) ∧
    (∀ (s s' : CState), Step s s' →
      ∀ hd, s.usedHandles hd = true → s'.usedHandles hd = true) := by
  constructor
  · intro o s r hd b p hw hpend hu
    subst hpend
    have h0 : s.pendingDecryptionHandles r ≠ 0 := by
      have := hw.used_ne _ hu
      omega
    exact verify_error_used h0 hu
  · intro s s' hstep hd hu
    cases hstep with
    | submit h =>
      obtain ⟨-, -, -, -, -, -, -, hused, -⟩ := addSalary_ok_cases h
      rw [hused]; exact hu
    | request h =>
      obtain ⟨-, -, -, -, -, -, -, hused, -⟩ := request_ok_cases h
      rw [hused]; exact hu
    | verify h =>
      obtain ⟨-, -, -, -, -, -, -, -, hused, -⟩ := verify_ok_cases h
      rw [hused hd]
      split
      · rfl
      · exact hu

/-- C1 witness: in `exUsed` (handle `1` consumed and pending) the replay
guard fires even though `oracleYes` would accept the proof. -/
theorem claim_C1_witness :
    verifyDecryption oracleYes exUsed 0 [60000] [] =
      Except.error SError.HandleAlreadyUsed :=
  claim_C1.1 oracleYes exUsed 0 1 [60000] []
    (by
      constructor
      · decide
      · decide
      · decide
      · constructor <;> intro h <;> simp [exUsed] at h
      · intro a; norm_num [exUsed]
      · intro h hh; simp [exUsed] at hh; subst hh; decide
      · intro h hh; simp [exUsed] at hh; subst hh; decide)
    rfl rfl

/-- Claim C2: A successful `verifyDecryption` performs exactly the
specified state changes: the decoded average is recorded for the
requester, the pending handle enters the replay set, the pending slot is
cleared (back to `NONE`), `AverageDecrypted(requester, average)` is
emitted, and nothing else changes; a failing call with a pending handle
leaves the requester pending with the same handle, so retry remains
possible. -/
theorem claim_C2 :
    (∀ (o : Oracle) (s : CState) (r : Addr) (b p : Bytes) (s' : CState)
        (ev : Event), verifyDecryption o s r b p = Except.ok (s', ev) →
      s'.lastDecryptedAverage r = o.decodeU32 b ∧
      s'.usedHandles (s.pendingDecryptionHandles r) = true ∧
      s'.pendingDecryptionHandles r = 0 ∧
      ev = Event.AverageDecrypted r (o.decodeU32 b) ∧
      s'.count = s.count ∧
      s'.encryptedTotal = s.encryptedTotal ∧
      s'.fhe = s.fhe ∧
      s'.hasSubmitted = s.hasSubmitted ∧
      (∀ a, a ≠ r → s'.lastDecryptedAverage a = s.lastDecryptedAverage a ∧
        s'.pendingDecryptionHandles a = s.pendingDecryptionHandles a) ∧
      (∀ hd, hd ≠ s.pendingDecryptionHandles r →
        s'.usedHandles hd = s.usedHandles hd)) ∧
    (∀ (o : Oracle) (s : CState) (r : Addr) (b p : Bytes) (e : SError),
      s.pendingDecryptionHandles r ≠ 0 →
      verifyDecryption o s r b p = Except.error e →
      verifyDecryptionTx o s r b p = (s, []) ∧
      (verifyDecryptionTx o s r b p).1.pendingDecryptionHandles r =
        s.pendingDecryptionHandles r ∧
      (verifyDecryptionTx o s r b p).1.pendingDecryptionHandles r ≠ 0) := by
  constructor
  · intro o s r b p s' ev h
    obtain ⟨h0, hu, hsig, hcount, htotal, hfhe, hsub, hlast, hused, hpend, hev⟩ :=
      verify_ok_cases h
    refine ⟨?_, ?_, ?_, hev, hcount, htotal, hfhe, hsub, ?_, ?_⟩
    · rw [hlast r]; simp
    · rw [hused (s.pendingDecryptionHandles r)]; simp
    · rw [hpend r]; simp
    · intro a ha
      exact ⟨by rw [hlast a]; simp [ha], by rw [hpend a]; simp [ha]⟩
    · intro hd hh
      rw [hused hd]; simp [hh]
  · intro o s r b p e h0 he
    have ht : verifyDecryptionTx o s r b p = (s, []) := by
      unfold verifyDecryptionTx; rw [he]
    rw [ht]
    exact ⟨rfl, rfl, h0⟩

/-- C2 witness: after one submission and one request, a successful
verification by address `0` records the decoded average `60000`, consumes
handle `2` and clears the pending slot; and with a rejecting oracle the
same call fails, leaving the pending handle in place. -/
theorem claim_C2_witness :
    ((verifyDecryptionTx oracleYes exS2 0 [60000] []).1.lastDecryptedAverage 0
      = 60000 ∧
      (verifyDecryptionTx oracleYes exS2 0 [60000] []).1.usedHandles 2 = true ∧
      (verifyDecryptionTx oracleYes exS2 0 [60000] []).1.pendingDecryptionHandles 0
        = 0) ∧
    (verifyDecryptionTx oracleNo exS2 0 [60000] []).1.pendingDecryptionHandles 0
      = exS2.pendingDecryptionHandles 0 := by
  constructor
  · have h := claim_C2.1 oracleYes exS2 0 [60000] []
      (verifyDecryptionTx oracleYes exS2 0 [60000] []).1
      (Event.AverageDecrypted 0 60000) rfl
    exact ⟨h.1, h.2.1, h.2.2.1⟩
  · exact (claim_C2.2 oracleNo exS2 0 [60000] []
      SError.InvalidDecryptionProof (by decide) rfl).2.1

/-- Claim C8: In every reachable state `count = 0` iff the total is the
uninitialized handle; `count` never decreases across a transaction;
`requestAverageDecryption` and `verifyDecryption` never change it; and a
successful `addSalary` increases it by exactly one without wrapping. -/
theorem claim_C8 :
    (∀ s, Reachable s → (s.count = 0 ↔ s.encryptedTotal = 0)) ∧
    (∀ s s', Step s s' → s.count ≤ s'.count) ∧
    (∀ (s : CState) (sender : Addr) (s' : CState) (hd : Nat) (ev : Event),
      requestAverageDecryption s sender = Except.ok (s', hd, ev) →
      s'.count = s.count) ∧
    (∀ (o : Oracle) (s : CState) (sender : Addr) (b p : Bytes) (s' : CState)
        (ev : Event), verifyDecryption o s sender b p = Except.ok (s', ev) →
      s'.count = s.count) ∧
    (∀ (o : Oracle) (s : CState) (sender : Addr) (c : ExtCipher) (p : Bytes)
        (s' : CState) (ev : Event), addSalary o s sender c p = Except.ok (s', ev) →
      s'.count = s.count + 1 ∧ s'.count < U32MOD) := by
  refine ⟨?_, ?_, ?_, ?_, ?_⟩
  · intro s h
    exact (wf_reachable h).zero_iff
  · intro s s' hstep
    cases hstep with
    | submit h =>
      obtain ⟨-, -, -, hcount, -⟩ := addSalary_ok_cases h
      omega
    | request h =>
      obtain ⟨-, -, -, hcount, -⟩ := request_ok_cases h
      omega
    | verify h =>
      obtain ⟨-, -, -, hcount, -⟩ := verify_ok_cases h
      omega
  · intro s sender s' hd ev h
    exact (request_ok_cases h).2.2.2.1
  · intro o s sender b p s' ev h
    exact (verify_ok_cases h).2.2.2.1
  · intro o s sender c p s' ev h
    obtain ⟨-, -, h3, hcount, -⟩ := addSalary_ok_cases h
    omega

/-- C8 witness: the invariant holds at deployment, and the first
submission moves the count from `0` to `1`. -/
theorem claim_C8_witness :
    (initState.count = 0 ↔ initState.encryptedTotal = 0) ∧
    exS1.count = initState.count + 1 ∧ exS1.count < U32MOD :=
  ⟨claim_C8.1 initState Relation.ReflTransGen.refl,
    claim_C8.2.2.2.2 oracleYes initState 1 7 [] exS1
      (Event.SalarySubmitted 1 1) rfl⟩

/-- Claim C4: A successful `addSalary`: on a first submission the new total
is exactly the handle obtained from the external ciphertext, otherwise it
is `FHE.add` of the old total and that handle — a fresh handle distinct
from the abandoned old total; the count goes up by one, the submitter is
recorded, and `SalarySubmitted(principal, newCount)` carries the updated
count. -/
theorem claim_C4 (o : Oracle) (s : CState) (sender : Addr) (c : ExtCipher)
    (p : Bytes) (s' : CState) (ev : Event) (hw : Wf s)
    (h : addSalary o s sender c p = Except.ok (s', ev)) :
    (s.count = 0 →
      ∃ f1, FHE.fromExternal o s.fhe c p = some (s'.encryptedTotal, f1)) ∧
    (s.count ≠ 0 →
      ∃ salary f1, FHE.fromExternal o s.fhe c p = some (salary, f1) ∧
        s'.encryptedTotal =
          (FHE.add (FHE.allowThis f1 salary) s.encryptedTotal salary).1 ∧
        s'.encryptedTotal ≠ s.encryptedTotal) ∧
    s'.count = s.count + 1 ∧
    s'.hasSubmitted sender = true ∧
    ev = Event.SalarySubmitted sender s'.count := by
  obtain ⟨h1, h2, h3, hcount, hsub, -, -, -, htotal, -, hev⟩ :=
    addSalary_ok_cases h
  have hfe : FHE.fromExternal o s.fhe c p =
      some (s.fhe.nextHandle, { s.fhe with nextHandle := s.fhe.nextHandle + 1 }) := by
    unfold FHE.fromExternal FHEState.alloc
    rw [if_pos h2]
  refine ⟨?_, ?_, hcount, ?_, ?_⟩
  · intro h0
    rw [if_pos h0] at htotal
    exact ⟨_, by rw [hfe, htotal]⟩
  · intro h0
    rw [if_neg h0] at htotal
    refine ⟨s.fhe.nextHandle, _, hfe, ?_, ?_⟩
    · rw [htotal]
      rfl
    · have := hw.total_lt
      omega
  · rw [hsub sender]; simp
  · rw [hev, hcount]

/-- C4 witness: address `2` submits on top of `exS1` (count `1`), so the
new total is a fresh combined handle, distinct from the old one, and the
count becomes `2`. -/
theorem claim_C4_witness :
    exS4.count = exS1.count + 1 ∧ exS4.hasSubmitted 2 = true ∧
    exS4.encryptedTotal ≠ exS1.encryptedTotal := by
  have h := claim_C4 oracleYes exS1 2 8 [] exS4 (Event.SalarySubmitted 2 2)
    (@wf_addSalary oracleYes initState 1 7 [] exS1
      (Event.SalarySubmitted 1 1) rfl wf_init) rfl
  obtain ⟨-, -, -, -, hne⟩ := h.2.1 (by decide)
  exact ⟨h.2.2.1, h.2.2.2.1, hne⟩

/-- A handle that is strictly below the allocator and not pending for `r`
stays below the allocator and never becomes pending for `r` again. -/
theorem stale_handle_preserved (r : Addr) (h1 : Nat) (h1pos : 1 ≤ h1)
    {t t' : CState} (hstep : Step t t')
    (hlt : h1 < t.fhe.nextHandle) (hne : t.pendingDecryptionHandles r ≠ h1) :
    h1 < t'.fhe.nextHandle ∧ t'.pendingDecryptionHandles r ≠ h1 := by
  cases hstep with
  | submit h =>
    obtain ⟨-, -, -, -, -, -, hpend, -, -, hnext, -⟩ := addSalary_ok_cases h
    constructor
    · rw [hnext]; split <;> omega
    · rw [hpend]; exact hne
  | request h =>
    obtain ⟨-, -, hhd, -, -, -, -, -, hpend, hnext, -⟩ := request_ok_cases h
    constructor
    · rw [hnext]; omega
    · rw [hpend r]
      split
      · rw [hhd]; omega
      · exact hne
  | verify h =>
    obtain ⟨-, -, -, -, -, hfhe, -, -, -, hpend, -⟩ := verify_ok_cases h
    constructor
    · rw [hfhe]; exact hlt
    · rw [hpend r]
      split
      · omega
      · exact hne

/-- Claim C9: At most one pending request per requester: a second
`requestAverageDecryption` overwrites the stored pending handle with a
fresh, different handle, and from then on no sequence of transactions
ever makes the stale handle pending for that requester again — so every
later successful verification by the requester consumes a handle other
than the stale one and leaves the stale handle's replay status
untouched. -/
theorem claim_C9 (s : CState) (r : Addr) (s1 s2 : CState) (h1 h2 : Nat)
    (ev1 ev2 : Event) (hw : Wf s)
    (hreq1 : requestAverageDecryption s r = Except.ok (s1, h1, ev1))
    (hreq2 : requestAverageDecryption s1 r = Except.ok (s2, h2, ev2)) :
    s1.pendingDecryptionHandles r = h1 ∧
    s2.pendingDecryptionHandles r = h2 ∧
    h2 ≠ h1 ∧
    (∀ t, Relation.ReflTransGen Step s2 t →
      t.pendingDecryptionHandles r ≠ h1 ∧
      ∀ (o : Oracle) (b p : Bytes) (t' : CState) (ev : Event),
        verifyDecryption o t r b p = Except.ok (t', ev) →
        t'.usedHandles h1 = t.usedHandles h1) := by
  obtain ⟨-, -, hhd1, -, -, -, -, -, hpend1, hnext1, -⟩ := request_ok_cases hreq1
  obtain ⟨-, -, hhd2, -, -, -, -, -, hpend2, hnext2, -⟩ := request_ok_cases hreq2
  have hp1 : s1.pendingDecryptionHandles r = h1 := by rw [hpend1 r]; simp
  have hp2 : s2.pendingDecryptionHandles r = h2 := by rw [hpend2 r]; simp
  have hne21 : h2 ≠ h1 := by
    rw [hhd1, hhd2, hnext1]
    omega
  have h1pos : 1 ≤ h1 := by
    have := hw.next_pos
    rw [hhd1]
    omega
  have hinv : ∀ t, Relation.ReflTransGen Step s2 t →
      h1 < t.fhe.nextHandle ∧ t.pendingDecryptionHandles r ≠ h1 := by
    intro t ht
    induction ht with
    | refl =>
      constructor
      · rw [hnext2, hnext1, hhd1]; omega
      · rw [hp2]; exact hne21
    | tail hsteps hstep ih =>
      exact stale_handle_preserved r h1 h1pos hstep ih.1 ih.2
  refine ⟨hp1, hp2, hne21, ?_⟩
  intro t ht
  refine ⟨(hinv t ht).2, ?_⟩
  intro o b p t' ev hok
  obtain ⟨-, -, -, -, -, -, -, -, hused, -⟩ := verify_ok_cases hok
  rw [hused h1, if_neg (Ne.symm (hinv t ht).2)]

/-- C9 witness: address `0` requests twice after one submission; the
pending handle moves from `2` to `3`, and `2` is never pending again. -/
theorem claim_C9_witness :
    exS2.pendingDecryptionHandles 0 = 2 ∧
    exS3.pendingDecryptionHandles 0 = 3 ∧
    (3 : Nat) ≠ 2 ∧
    exS3.pendingDecryptionHandles 0 ≠ 2 := by
  have h := claim_C9 exS1 0 exS2 exS3 2 3 (Event.AverageRequested 0 2)
    (Event.AverageRequested 0 3)
    (@wf_addSalary oracleYes initState 1 7 [] exS1
      (Event.SalarySubmitted 1 1) rfl wf_init) rfl rfl
  exact ⟨h.1, h.2.1, h.2.2.1, (h.2.2.2 exS3 Relation.ReflTransGen.refl).1⟩

end SalaryLens
